import Mathlib

/-!
Verification of the send-media core (signal codec, connection controller,
transfer engine) against its natural-language specification.

The development shallowly embeds the TypeScript source:
* src/lib/utils.ts      — signal codec (minifySDP, restoreSDP, encodeSignal,
                          decodeSignal, sleep, uid, ...)
* src/hooks/useWebRTC.ts — connection controller and transfer engine
                          (acceptOffer, acceptAnswer, processNextFile,
                          cancelTransfer, handleData, peer error handler)

Strings are modelled by Lean `String` (a wrapper around `List Char`); JS
regular-expression splits and replaces are written out as recursions over
character lists.  Machine numbers in the source are plain JS numbers used
as integers (sizes, counts, timestamps); they are modelled by `Nat`.  The
instantaneous speed and eta, which JS computes with float division, are
modelled by `ℚ` (exact where JS is exact; no claim depends on float
rounding).  Fallible operations return `Option`/`Except`.
-/

namespace SendMedia

/-- 64 KiB chunk size (`CHUNK_SIZE = 64 * 1024` in useWebRTC.ts). -/
def CHUNK_SIZE : Nat := 64 * 1024

/-- 1 MiB outbound-buffer high-water mark (`HIGH_WATER_MARK` in useWebRTC.ts). -/
def HIGH_WATER_MARK : Nat := 1024 * 1024

/-- 80 ms progress-update throttle (`PROGRESS_THROTTLE` in useWebRTC.ts). -/
def PROGRESS_THROTTLE : Nat := 80

/-! ## SDP minification (src/lib/utils.ts, minifySDP / restoreSDP)

`minifySDP` does `sdp.split(/\r?\n/).map(trim).filter(keep).join('\r\n') + '\r\n'`.
We embed the split, the JS `String.prototype.trim`, the keep predicate and
the join faithfully, working on the underlying character lists. -/

/-- JS `split(/\r?\n/)`: a line break is the two-character sequence CR LF or a
bare LF.  A CR not followed by LF stays inside its line, as in the regex. -/
def splitNL : List Char → List (List Char)
  | [] => [[]]
  | '\r' :: '\n' :: rest => [] :: splitNL rest
  | '\n' :: rest => [] :: splitNL rest
  | c :: rest =>
    match splitNL rest with
    | [] => [[c]]
    | l :: ls => (c :: l) :: ls

/-- The ASCII whitespace characters removed by JS `trim` (the source SDP is
ASCII; the additional Unicode space characters JS also trims never occur). -/
def isJsWS (c : Char) : Bool :=
  c = ' ' || c = '\t' || c = '\n' || c = '\r' || c = '\x0b' || c = '\x0c'

/-- JS `line.trim()`: drop leading and trailing whitespace. -/
def trimChars (l : List Char) : List Char :=
  ((l.dropWhile isJsWS).reverse.dropWhile isJsWS).reverse

/-- JS `s.trim()` on a `String`. -/
def jsTrim (s : String) : String := (trimChars s.data).asString

/-- JS `s.startsWith(pre)`. -/
def startsWithStr (s pre : String) : Bool := pre.data.isPrefixOf s.data

/-- The filter body of `minifySDP`: keep a (trimmed) line unless it is empty
or is high-volume media junk; `a=mid:` and `a=msid-semantic:` are kept
explicitly (only `a=msid:` is stripped). -/
def keepLine (line : String) : Bool :=
  if line = "" then false
  else if startsWithStr line "a=mid:" || startsWithStr line "a=msid-semantic:" then true
  else
    !(startsWithStr line "a=rtpmap" || startsWithStr line "a=fmtp" ||
      startsWithStr line "a=rtcp-fb" || startsWithStr line "a=ssrc" ||
      startsWithStr line "a=extmap" || startsWithStr line "a=msid:")

/-- The lines of an SDP string that survive `minifySDP`: split on `\r?\n`,
trim each line, keep those accepted by `keepLine`. -/
def keptLines (sdp : String) : List String :=
  (((splitNL sdp.data).map fun l => (trimChars l).asString).filter keepLine)

/-- JS `Array.prototype.join(sep)`. -/
def joinSep (sep : String) : List String → String
  | [] => ""
  | [x] => x
  | x :: y :: xs => x ++ sep ++ joinSep sep (y :: xs)

/-- `minifySDP` (src/lib/utils.ts lines 24–47): filter the lines as above,
rejoin with CRLF and append a trailing CRLF. -/
def minifySDP (sdp : String) : String :=
  joinSep "\r\n" (keptLines sdp) ++ "\r\n"

/-- JS `replace(/\r?\n/g, '\r\n')`: leave CR LF pairs alone, turn every bare
LF into CR LF, leave a CR not followed by LF alone. -/
def normCRLF : List Char → List Char
  | [] => []
  | '\r' :: '\n' :: rest => '\r' :: '\n' :: normCRLF rest
  | '\n' :: rest => '\r' :: '\n' :: normCRLF rest
  | c :: rest => c :: normCRLF rest

/-- JS `s.endsWith('\r\n')`. -/
def endsWithCRLF (l : List Char) : Bool :=
  match l.reverse with
  | '\n' :: '\r' :: _ => true
  | _ => false

/-- `restoreSDP` (src/lib/utils.ts lines 50–57): empty input maps to itself;
otherwise normalize line endings to CRLF and ensure a trailing CRLF. -/
def restoreSDP (m : String) : String :=
  if m = "" then ""
  else
    let l := normCRLF m.data
    if endsWithCRLF l then l.asString else l.asString ++ "\r\n"

/-! ## Signal blobs and the codec core

`encodeSignal` minifies the sdp (only when the field is truthy, i.e.
non-empty), renames `type→t`, `sdp→s`, JSON-serializes, DEFLATEs and
base64-encodes.  `decodeSignal` inverts each step and restores the sdp
(again only when truthy).  The external JSON/DEFLATE layer (pako and
`JSON.stringify`/`JSON.parse`, both lossless by their contracts) is the
identity from blob to blob; `encodeSignalCore`/`decodeSignalCore` are the
blob-level content of the two functions, and the byte/string level is
modelled further below for the connection controller. -/

structure SignalBlob where
  type : String
  sdp : String
deriving DecidableEq, Repr

/-- The key-shortened payload (`{t, s}`) that is JSON-serialized. -/
structure ShortBlob where
  t : String
  s : String
deriving DecidableEq, Repr

/-- Blob-level content of `encodeSignal`: minify the sdp when it is truthy
(non-empty in JS), shorten the keys. -/
def encodeSignalCore (x : SignalBlob) : ShortBlob :=
  { t := x.type, s := if x.sdp = "" then x.sdp else minifySDP x.sdp }

/-- Blob-level content of `decodeSignal` steps 3–4: restore the keys, restore
the sdp when it is truthy (non-empty in JS). -/
def decodeSignalCore (y : ShortBlob) : SignalBlob :=
  { type := y.t, sdp := if y.s = "" then y.s else restoreSDP y.s }

/-! ## Base64 (browser `btoa` / `atob`)

`encodeSignal` turns the compressed bytes into a binary string and calls
`btoa`; `decodeSignal` calls `atob` and reads the bytes back.  `atob`
implements the WHATWG forgiving-base64 decode: ASCII whitespace is removed,
up to two trailing `=` are stripped when the length is a multiple of four,
any other character outside the standard alphabet is an error, as is a
length congruent to 1 mod 4. -/

/-- The standard base64 alphabet. -/
def b64Chars : List Char :=
  "ABCDEFGHIJKLMNOPQRSTUVWXYZabcdefghijklmnopqrstuvwxyz0123456789+/".data

/-- The character for a 6-bit value. -/
def b64Char (n : Nat) : Char := b64Chars.getD n 'A'

/-- The 6-bit value of an alphabet character, if any. -/
def b64Val (c : Char) : Option Nat := b64Chars.indexOf? c

/-- `btoa` on a byte list: standard base64 with `=` padding.  JS `btoa`
consumes a binary string and throws on char codes above 255; it is only ever
applied to DEFLATE output, which is bytes. -/
def btoaChars : List Nat → List Char
  | [] => []
  | [a] => [b64Char (a / 4), b64Char (a % 4 * 16), '=', '=']
  | [a, b] => [b64Char (a / 4), b64Char (a % 4 * 16 + b / 16), b64Char (b % 16 * 4), '=']
  | a :: b :: c :: rest =>
    b64Char (a / 4) :: b64Char (a % 4 * 16 + b / 16) ::
      b64Char (b % 16 * 4 + c / 64) :: b64Char (c % 64) :: btoaChars rest

/-- `btoa` producing a string. -/
def btoaM (bytes : List Nat) : String := (btoaChars bytes).asString

/-- ASCII whitespace removed by forgiving-base64 decode. -/
def isAsciiWS (c : Char) : Bool :=
  c = ' ' || c = '\t' || c = '\n' || c = '\r' || c = '\x0c'

/-- Strip up to two trailing `=` characters. -/
def stripPad (l : List Char) : List Char :=
  match l.reverse with
  | '=' :: '=' :: rest => rest.reverse
  | '=' :: rest => rest.reverse
  | _ => l

/-- Reassemble bytes from 6-bit groups; a final group of one sextet is an
error, final groups of two or three sextets contribute one or two bytes. -/
def sextetsToBytes : List Nat → Option (List Nat)
  | [] => some []
  | [_] => none
  | [s1, s2] => some [s1 * 4 + s2 / 16]
  | [s1, s2, s3] => some [s1 * 4 + s2 / 16, s2 % 16 * 16 + s3 / 4]
  | s1 :: s2 :: s3 :: s4 :: rest =>
    (sextetsToBytes rest).map fun bs =>
      (s1 * 4 + s2 / 16) :: (s2 % 16 * 16 + s3 / 4) :: (s3 % 4 * 64 + s4) :: bs

/-- `atob`: WHATWG forgiving-base64 decode, `none` on failure (JS throws an
InvalidCharacterError). -/
def atobM (s : String) : Option (List Nat) :=
  let cs := s.data.filter fun c => !isAsciiWS c
  let cs := if cs.length % 4 = 0 then stripPad cs else cs
  if cs.length % 4 = 1 then none
  else
    match cs.mapM b64Val with
    | none => none
    | some sx => sextetsToBytes sx

/-! ## The external serialization layer

Between the key-shortened blob and the base64 text, `encodeSignal` applies
`JSON.stringify` then `pako.deflate`, and `decodeSignal` applies
`pako.inflate` then `JSON.parse`.  Both libraries are external to this
repository and lossless on this data by contract (inflate inverts deflate;
JSON.parse inverts JSON.stringify on plain string-field objects).  They are
modelled by a concrete injective serialization of the `{t, s}` payload into
bytes together with its partial inverse; every property proved below either
holds for any lossless layer or is evaluated on concrete blobs. -/

/-- Stand-in for `pako.deflate(JSON.stringify({t, s}))`: a length-prefixed
concatenation of the two fields' character codes. -/
def serializeBlob (y : ShortBlob) : List Nat :=
  y.t.length :: (y.t.data.map Char.toNat ++ y.s.data.map Char.toNat)

/-- Stand-in for `JSON.parse(pako.inflate(bytes))`, the partial inverse of
`serializeBlob`; `none` models an inflate or JSON parse exception. -/
def deserializeBlob (bytes : List Nat) : Option ShortBlob :=
  match bytes with
  | [] => none
  | n :: rest =>
    if n ≤ rest.length then
      some ⟨((rest.take n).map Char.ofNat).asString, ((rest.drop n).map Char.ofNat).asString⟩
    else none

/-- `encodeSignal` (src/lib/utils.ts lines 60–91): minify, shorten keys,
serialize+compress, base64.  (The catch-all fallback for an encoding
exception is not modelled: with string fields the pipeline cannot throw.) -/
def encodeSignalStr (x : SignalBlob) : String :=
  btoaM (serializeBlob (encodeSignalCore x))

/-- The fixed message of the exception `decodeSignal` throws when both the
compressed path and the legacy fallback fail. -/
def decodeFailMsg : String := "Failed to decode signaling data"

/-- The legacy fallback `JSON.parse(atob(input))` applied to decoded bytes.
Legacy blobs were plain base64 of JSON; none of the strings this development
feeds to `decodeSignal` is such a blob, so the parse is modelled as always
failing (a `JSON.parse` exception). -/
def legacyJsonParse (_ : List Nat) : Option SignalBlob := none

/-- The catch block of `decodeSignal`: try `JSON.parse(atob(input))`; if that
also fails, throw `Error('Failed to decode signaling data')`. -/
def decodeFallback (input : String) : Except String SignalBlob :=
  match atobM input with
  | some bs =>
    match legacyJsonParse bs with
    | some blob => .ok blob
    | none => .error decodeFailMsg
  | none => .error decodeFailMsg

/-- The try-block of `decodeSignal` applied to the trimmed input:
base64-decode, inflate+parse, restore keys and sdp; on any failure, fall
back to the legacy path and otherwise throw the fixed decode error. -/
def decodeTrimmed (input : String) : Except String SignalBlob :=
  match atobM input with
  | none => decodeFallback input
  | some bytes =>
    match deserializeBlob bytes with
    | none => decodeFallback input
    | some mapped => .ok (decodeSignalCore mapped)

/-- `decodeSignal` (src/lib/utils.ts lines 94–131): trim the input, then
decode it. -/
def decodeSignalStr (encoded : String) : Except String SignalBlob :=
  decodeTrimmed (jsTrim encoded)

/-! ## Connection controller (src/hooks/useWebRTC.ts)

The reactive fields of the hook are modelled as a record; the single peer
handle is a record of the facts the claims mention (initiator flag,
destroyed flag, the signals fed to it).  `peersConstructed` counts
`new Peer(...)` constructions. -/

inductive ConnState
  | idle | waitingForPeer | connecting | connected | disconnected | error
deriving DecidableEq, Repr

inductive SigStatus
  | gathering | ready
deriving DecidableEq, Repr

structure PeerModel where
  initiator : Bool
  destroyed : Bool
  signaled : List SignalBlob
deriving DecidableEq, Repr

structure VMState where
  connectionState : ConnState
  localSignal : Option String
  signalStatus : Option SigStatus
  error : Option String
  peer : Option PeerModel
  peersConstructed : Nat
deriving DecidableEq, Repr

/-- The initial hook state. -/
def initVM : VMState :=
  { connectionState := .idle, localSignal := none, signalStatus := none,
    error := none, peer := none, peersConstructed := 0 }

/-- `createPeerInstance` (useWebRTC.ts lines 292–354): destroy any existing
peer, construct a fresh one (counted) and install it. -/
def createPeerInstance (initiator : Bool) (st : VMState) : VMState :=
  { st with
    peer := some ⟨initiator, false, []⟩,
    peersConstructed := st.peersConstructed + 1 }

/-- JS `s.includes(pat)`. -/
def subOf (pat : List Char) : List Char → Bool
  | [] => pat.isEmpty
  | c :: rest => pat.isPrefixOf (c :: rest) || subOf pat rest

/-- JS `s.includes(pat)` on strings. -/
def containsSub (s pat : String) : Bool := subOf pat.data s.data

/-- The decode-error classification in `acceptOffer`/`acceptAnswer`:
`e.message?.includes('JSON') || e.message?.includes('base64')` selects the
`…Format` key, anything else the plain key. -/
def classifyDecodeError (msg formatKey plainKey : String) : String :=
  if containsSub msg "JSON" || containsSub msg "base64" then formatKey else plainKey

/-- `acceptOffer` (useWebRTC.ts lines 368–390).  Empty-after-trim input and
an already-connected state return early.  Otherwise the hook clears error and
local signal, enters `connecting`/`gathering`, constructs a responder peer,
and only then decodes; a decode exception is classified and surfaced with
state `error`.  Feeding the decoded signal to the fresh peer is modelled as
recording it (`peer.signal` succeeding). -/
def acceptOffer (st : VMState) (encodedOffer : String) : VMState :=
  if jsTrim encodedOffer = "" then st
  else if st.connectionState = .connected then st
  else
    let st1 := { st with
      error := none, localSignal := none,
      signalStatus := some .gathering, connectionState := .connecting }
    let st2 := createPeerInstance false st1
    match decodeSignalStr (jsTrim encodedOffer) with
    | .ok sig =>
      { st2 with peer := st2.peer.map fun p => { p with signaled := p.signaled ++ [sig] } }
    | .error m =>
      { st2 with
        error := some (classifyDecodeError m "invalidOfferFormat" "invalidOffer"),
        connectionState := .error, signalStatus := none }

/-- `acceptAnswer` (useWebRTC.ts lines 393–408).  Empty-after-trim input and
an already-connected state return early.  Otherwise clear the error and
decode; on success feed the signal to the existing peer (a missing or
destroyed peer raises, whose message contains neither `JSON` nor `base64`,
hence `invalidAnswer`); a decode exception is classified.  No branch sets
`connectionState` on success. -/
def acceptAnswer (st : VMState) (encodedAnswer : String) : VMState :=
  if jsTrim encodedAnswer = "" then st
  else if st.connectionState = .connected then st
  else
    let st1 := { st with error := none }
    match decodeSignalStr (jsTrim encodedAnswer) with
    | .error m =>
      { st1 with
        error := some (classifyDecodeError m "invalidAnswerFormat" "invalidAnswer"),
        connectionState := .error }
    | .ok sig =>
      match st1.peer with
      | none => { st1 with error := some "invalidAnswer", connectionState := .error }
      | some p =>
        if p.destroyed then
          { st1 with error := some "invalidAnswer", connectionState := .error }
        else
          { st1 with peer := some { p with signaled := p.signaled ++ [sig] } }

/-- The `peer.on('error', ...)` handler (useWebRTC.ts lines 330–348): an ICE
message maps to `iceFailed`; otherwise the `ERR_WEBRTC_SUPPORT` code maps to
a literal English sentence; otherwise the raw message is surfaced.  The state
moves to `error` and the signal status is cleared. -/
def onPeerError (st : VMState) (code : Option String) (message : String) : VMState :=
  let msg := if message = "" then "Connection failed" else message
  let e :=
    if containsSub msg "Ice connection" || containsSub msg "ICE" then "iceFailed"
    else if code = some "ERR_WEBRTC_SUPPORT" then
      "WebRTC not supported or blocked by browser."
    else msg
  { st with error := some e, connectionState := .error, signalStatus := none }

/-! ## Wire format of the data channel (useWebRTC.ts §Chunked File Transfer)

Control messages are JSON strings, chunks are raw bytes; the dispatch in
`handleData` (text, or bytes parsing as a `{...}` JSON object, versus binary)
is modelled by this tagged union.  `file-meta` carries `id, name, size,
totalChunks`; `file-complete` carries no id; `file-cancel` carries an id only
when sent from `cancelTransfer` (the send loop's own cancel omits it). -/

inductive WireMsg
  | fileMeta (id name : String) (size totalChunks : Nat)
  | chunk (data : List Nat)
  | fileComplete
  | fileCancel (id : Option String)
  | chat (text : String) (timestamp : Nat)
deriving DecidableEq, Repr

/-- Whether a wire message is a `file-cancel`. -/
def isCancelMsg : WireMsg → Bool
  | .fileCancel _ => true
  | _ => false

/-- Whether a wire message is a binary chunk. -/
def isChunkMsg : WireMsg → Bool
  | .chunk _ => true
  | _ => false

/-- `Math.ceil(size / CHUNK_SIZE)` (useWebRTC.ts line 442), exact on these
integers. -/
def totalChunksOf (size : Nat) : Nat := (size + CHUNK_SIZE - 1) / CHUNK_SIZE

inductive TransferStatus
  | queued | transferring | completed | cancelled | error
deriving DecidableEq, Repr

/-- `file.slice(i*CHUNK_SIZE, min((i+1)*CHUNK_SIZE, size))` viewed from the
tail of the file that is still unsent: the next chunk is the first
`CHUNK_SIZE` bytes of the remainder. -/
def nextChunk (rest : List Nat) : List Nat := rest.take CHUNK_SIZE

/-- The reference chunk decomposition of a file: successive `CHUNK_SIZE`
slices (fuel-recursive so that it reduces in the kernel; the fuel
`bytes.length + 1` always suffices since every step consumes at least one
byte). -/
def chunksOfAux : Nat → List Nat → List (List Nat)
  | 0, _ => []
  | _ + 1, [] => []
  | fuel + 1, bytes => nextChunk bytes :: chunksOfAux fuel (bytes.drop CHUNK_SIZE)

/-- The chunk decomposition of a file. -/
def chunksOf (bytes : List Nat) : List (List Nat) :=
  chunksOfAux (bytes.length + 1) bytes

/-- Whether the send loop's per-chunk check `cancelledRef.current.has(id)`
fires at iteration `i`.  A cancel request arriving while chunk `k - 1` is in
flight is observed at every iteration from `k` on (the set is only emptied by
the loop itself, which then breaks); `none` means the id is never
cancelled. -/
def cancelObs (cancelAt : Option Nat) (i : Nat) : Bool :=
  match cancelAt with
  | some k => k ≤ i
  | none => false

/-- The chunk loop of `processNextFile` (useWebRTC.ts lines 455–506): for
each chunk index, first check the cancelled set (emit a bare `file-cancel`,
mark failed and break), otherwise slice and send the chunk.  The peer is
live throughout and sends succeed (the error branches are about an external
destroyed peer).  Returns the emitted messages and the `transferFailed`
flag.  Fuel-recursive on `rest.length + 1`. -/
def sendLoopAux (cancelAt : Option Nat) : Nat → List Nat → Nat → List WireMsg × Bool
  | 0, _, _ => ([], false)
  | _ + 1, [], _ => ([], false)
  | fuel + 1, rest, i =>
    if cancelObs cancelAt i then ([.fileCancel none], true)
    else
      let r := sendLoopAux cancelAt fuel (rest.drop CHUNK_SIZE) (i + 1)
      (.chunk (nextChunk rest) :: r.1, r.2)

/-- One pass of the body of `processNextFile` for a single dequeued file
(useWebRTC.ts lines 441–515): emit `file-meta`, run the chunk loop, and send
`file-complete` exactly when the loop did not fail and the id is not in the
cancelled set.  The returned status is the final status of the transfer
record: `completed` on the clean path; `cancelled` when the loop observed the
cancel, and also when the cancel arrived after the last chunk (the loop never
observes it, `file-complete` is skipped because the id is still in the set,
and `cancelTransfer` itself already marked the record cancelled). -/
def sendFileRun (id name : String) (bytes : List Nat) (cancelAt : Option Nat) :
    List WireMsg × TransferStatus :=
  let body := sendLoopAux cancelAt (bytes.length + 1) bytes 0
  let wire := WireMsg.fileMeta id name bytes.length (totalChunksOf bytes.length) :: body.1
  match cancelAt with
  | none => (wire ++ [.fileComplete], .completed)
  | some _ => (wire, .cancelled)

/-- What `cancelTransfer` (useWebRTC.ts lines 554–568) sends on the wire: a
`file-cancel` carrying the id, exactly when the transfer is `transferring`
and the peer is live. -/
def cancelTransferEmits (status : TransferStatus) (peerAlive : Bool) (id : String) :
    List WireMsg :=
  if status = .transferring ∧ peerAlive = true then [.fileCancel (some id)] else []

/-- The full wire trace of the cancel-in-flight scenario: `cancelTransfer id`
runs at the single-threaded suspension point after the loop has sent chunks
`0 … k-1`; its own `file-cancel {id}` goes out there, and the loop, resuming
at iteration `k`, observes the cancelled set and emits its bare
`file-cancel`.  `(sendLoopAux … (some k) …)` produces exactly those chunks
followed by the loop's cancel, so the trace splices `cancelTransfer`'s
message between the two at position `k`. -/
def cancelInFlightWire (id name : String) (bytes : List Nat) (k : Nat) : List WireMsg :=
  let loopMsgs := (sendLoopAux (some k) (bytes.length + 1) bytes 0).1
  WireMsg.fileMeta id name bytes.length (totalChunksOf bytes.length) ::
    (loopMsgs.take k ++ cancelTransferEmits .transferring true id ++ loopMsgs.drop k)

/-- `Math.min(100, Math.round(bytes / size * 100))` for the progress field.
`(200*b + s) / (2*s)` is `floor(100*b/s + 1/2)`, the exact value of the JS
round-half-up on these integer ratios.  For `size = 0` JS produces `NaN`
(never reached by a well-formed stream); we return 0 there. -/
def progressOf (bytes size : Nat) : Nat :=
  if size = 0 then 0 else min 100 ((200 * bytes + size) / (2 * size))

/-- The observable `(progress, status)` pairs that the send side publishes
for one transfer, in order (useWebRTC.ts `sendFiles` and `processNextFile`):
the `queued` record appended by `sendFiles`, the `transferring` update, one
progress update per chunk — modelling the schedule in which the 80 ms
throttle has always expired, which subsumes the unconditional final-chunk
update — the `cancelled` update when the loop observes a cancel, and the
`completed` update with progress 100 after `file-complete`. -/
def sendObsLoop (size : Nat) (cancelAt : Option Nat) :
    Nat → List Nat → Nat → Nat → List (Nat × TransferStatus)
  | 0, _, _, _ => []
  | _ + 1, [], _, _ => []
  | fuel + 1, rest, i, sent =>
    if cancelObs cancelAt i then [(progressOf sent size, .cancelled)]
    else
      let sent2 := sent + (nextChunk rest).length
      (progressOf sent2 size, .transferring) ::
        sendObsLoop size cancelAt fuel (rest.drop CHUNK_SIZE) (i + 1) sent2

/-- All observable `(progress, status)` pairs of a sent file, in order. -/
def sendObs (bytes : List Nat) (cancelAt : Option Nat) : List (Nat × TransferStatus) :=
  let body := sendObsLoop bytes.length cancelAt (bytes.length + 1) bytes 0 0
  let tail := match cancelAt with
    | none => [(100, TransferStatus.completed)]
    | some _ => []
  (0, TransferStatus.queued) :: (0, TransferStatus.transferring) :: body ++ tail

/-! ## Receive path (`handleData`, useWebRTC.ts lines 184–289) -/

inductive Direction
  | send | receive
deriving DecidableEq, Repr

structure FileTransfer where
  id : String
  name : String
  size : Nat
  progress : Nat
  speed : ℚ
  status : TransferStatus
  direction : Direction
  eta : Option ℚ
  startTime : Option Nat
  endTime : Option Nat
deriving DecidableEq, Repr

instance : Inhabited FileTransfer :=
  ⟨⟨"", "", 0, 0, 0, .queued, .send, none, none, none⟩⟩

inductive Sender
  | me | peer
deriving DecidableEq, Repr

structure ChatMessage where
  id : String
  text : String
  sender : Sender
  timestamp : Nat
deriving DecidableEq, Repr

structure IncomingAssembly where
  id : String
  name : String
  size : Nat
  totalChunks : Nat
  chunks : List (List Nat)
  receivedBytes : Nat
  startTime : Nat
deriving DecidableEq, Repr

/-- The receive-side observable state: the transfer and message lists of the
view-model, the single in-progress assembly, the cancelled-id set (a list),
and a counter modelling the freshness of `crypto.randomUUID`. -/
structure RecvState where
  transfers : List FileTransfer
  messages : List ChatMessage
  incoming : Option IncomingAssembly
  cancelled : List String
  uidSeq : Nat
deriving DecidableEq, Repr

/-- The fresh id `uid()` returns at counter value `n` (models
`crypto.randomUUID`, which never collides with peer-chosen ids). -/
def uidOf (n : Nat) : String := "uid-" ++ toString n

/-- The empty receive state. -/
def initRecv : RecvState :=
  { transfers := [], messages := [], incoming := none, cancelled := [], uidSeq := 0 }

/-- One invocation of `handleData` at wall-clock `now`, already dispatched to
a tagged message (see `WireMsg`).  Each branch follows the source:
* `file-meta`: overwrite the assembly, append a fresh `transferring` receive
  record (an empty id — JS falsy — draws a fresh uid);
* `file-complete`: only with an assembly present, mark the matching record
  completed at progress 100 and drop the assembly (the browser download side
  effects have no model state);
* `file-cancel`: resolve the id against the message or the current assembly
  (an empty id is falsy), add it to the cancelled set, mark matching records
  cancelled, and drop the assembly when it matches;
* `chat`: append a peer message with a fresh uid;
* binary chunk: only with an assembly present, append the bytes and update
  progress, speed and eta of the matching record. -/
def stepRecv (now : Nat) (st : RecvState) (m : WireMsg) : RecvState :=
  match m with
  | .fileMeta mid name size totalChunks =>
    let rid := if mid = "" then uidOf st.uidSeq else mid
    let seq2 := if mid = "" then st.uidSeq + 1 else st.uidSeq
    { st with
      incoming := some ⟨rid, name, size, totalChunks, [], 0, now⟩,
      transfers := st.transfers ++
        [⟨rid, name, size, 0, 0, .transferring, .receive, none, some now, none⟩],
      uidSeq := seq2 }
  | .fileComplete =>
    match st.incoming with
    | none => st
    | some inc =>
      { st with
        transfers := st.transfers.map fun t =>
          if t.id = inc.id then
            { t with progress := 100, status := .completed, speed := 0, endTime := some now }
          else t,
        incoming := none }
  | .fileCancel oid =>
    let cancelId : Option String :=
      match oid with
      | some i => if i = "" then st.incoming.map (·.id) else some i
      | none => st.incoming.map (·.id)
    let st1 :=
      match cancelId with
      | some cid =>
        if cid = "" then st
        else
          { st with
            cancelled := st.cancelled ++ [cid],
            transfers := st.transfers.map fun (t : FileTransfer) =>
              if t.id = cid then { t with status := .cancelled, speed := 0 } else t }
      | none => st
    match st1.incoming with
    | some inc => if cancelId = some inc.id then { st1 with incoming := none } else st1
    | none => st1
  | .chat text ts =>
    { st with
      messages := st.messages ++ [⟨uidOf st.uidSeq, text, .peer, ts⟩],
      uidSeq := st.uidSeq + 1 }
  | .chunk data =>
    match st.incoming with
    | none => st
    | some inc =>
      let inc2 := { inc with
        chunks := inc.chunks ++ [data],
        receivedBytes := inc.receivedBytes + data.length }
      let prog := progressOf inc2.receivedBytes inc2.size
      let elapsed : ℚ := ((now : ℚ) - (inc.startTime : ℚ)) / 1000
      let speed : ℚ := if 0 < elapsed then (inc2.receivedBytes : ℚ) / elapsed else 0
      let eta : Option ℚ :=
        if 0 < speed then some (((inc2.size : ℚ) - (inc2.receivedBytes : ℚ)) / speed)
        else none
      { st with
        incoming := some inc2,
        transfers := st.transfers.map fun t =>
          if t.id = inc2.id then { t with progress := prog, speed := speed, eta := eta }
          else t }

/-- Process a timed message stream through `handleData`. -/
def runRecv (st : RecvState) : List (Nat × WireMsg) → RecvState
  | [] => st
  | (now, m) :: rest => runRecv (stepRecv now st m) rest

/-- The ids announced by the `file-meta` messages of a stream. -/
def metaIds : List WireMsg → List String
  | [] => []
  | .fileMeta i _ _ _ :: rest => i :: metaIds rest
  | _ :: rest => metaIds rest

/-! ## Helper lemmas -/

/-- A string of whitespace characters trims to the empty string. -/
lemma jsTrim_of_all_ws (s : String) (h : ∀ c ∈ s.data, isJsWS c = true) :
    jsTrim s = "" := by
  have h1 : s.data.dropWhile isJsWS = [] := by
    rw [List.dropWhile_eq_nil_iff]
    exact fun c hc => h c hc
  unfold jsTrim trimChars
  rw [h1]
  rfl

/-! ## Claim C10: early returns of acceptOffer and acceptAnswer -/

/-- C10 (confirmed): for every input string consisting only of whitespace
(including the empty string), and for every input string when the connection
state is already `connected`, `acceptOffer` and `acceptAnswer` are no-ops:
they return without constructing or signaling a peer and leave every
observable field unchanged. -/
theorem claim_C10_accept_noop (st : VMState) (s : String)
    (h : (∀ c ∈ s.data, isJsWS c = true) ∨ st.connectionState = .connected) :
    acceptOffer st s = st ∧ acceptAnswer st s = st := by
  rcases h with hws | hc
  · have ht := jsTrim_of_all_ws s hws
    constructor
    · unfold acceptOffer; simp [ht]
    · unfold acceptAnswer; simp [ht]
  · by_cases ht : jsTrim s = ""
    · constructor
      · unfold acceptOffer; simp [ht]
      · unfold acceptAnswer; simp [ht]
    · constructor
      · unfold acceptOffer; simp [ht, hc]
      · unfold acceptAnswer; simp [ht, hc]

/-- Witness for C10: a concrete whitespace string on the initial state. -/
theorem claim_C10_witness :
    acceptOffer initVM " \t\n" = initVM ∧ acceptAnswer initVM " \t\n" = initVM :=
  claim_C10_accept_noop initVM " \t\n" (Or.inl (by decide))

/-! ## Claim C9: binary data with no assembly is silently dropped -/

/-- C9 (confirmed): a binary payload arriving while no `IncomingAssembly`
exists leaves the whole observable receive state — transfers, messages,
assembly, cancelled set — unchanged; the bytes are silently dropped. -/
theorem claim_C9_chunk_dropped (now : Nat) (st : RecvState) (data : List Nat)
    (h : st.incoming = none) : stepRecv now st (.chunk data) = st := by
  unfold stepRecv
  rw [h]

/-- Witness for C9: a concrete chunk on the initial (assembly-free) state. -/
theorem claim_C9_witness : stepRecv 3 initRecv (.chunk [1, 2, 3]) = initRecv :=
  claim_C9_chunk_dropped 3 initRecv [1, 2, 3] rfl

/-! ## Claim C8: ERR_WEBRTC_SUPPORT surfaces a raw sentence, not a key -/

/-- C8 counterexample: on the library's unsupported-environment code the
surfaced error is not the i18n key `webrtcUnsupported`. -/
theorem claim_C8_counterexample :
    ¬ (onPeerError initVM (some "ERR_WEBRTC_SUPPORT") "No WebRTC support").error
        = some "webrtcUnsupported" := by decide

/-- C8 (amended): when the peer library reports `ERR_WEBRTC_SUPPORT` (and the
message is not classified as an ICE failure first), the surfaced error is the
literal sentence `WebRTC not supported or blocked by browser.` — a raw
message, not one of the enumerated i18n keys — and the connection state
becomes `error`. -/
theorem claim_C8_amended (st : VMState) (message : String)
    (h1 : containsSub (if message = "" then "Connection failed" else message)
            "Ice connection" = false)
    (h2 : containsSub (if message = "" then "Connection failed" else message)
            "ICE" = false) :
    (onPeerError st (some "ERR_WEBRTC_SUPPORT") message).error
        = some "WebRTC not supported or blocked by browser."
    ∧ (onPeerError st (some "ERR_WEBRTC_SUPPORT") message).connectionState = .error := by
  unfold onPeerError
  simp [h1, h2]

/-- Witness for C8: the concrete message simple-peer reports without WebRTC
support. -/
theorem claim_C8_witness :
    (onPeerError initVM (some "ERR_WEBRTC_SUPPORT") "No WebRTC support").error
        = some "WebRTC not supported or blocked by browser."
    ∧ (onPeerError initVM (some "ERR_WEBRTC_SUPPORT") "No WebRTC support").connectionState
        = .error :=
  claim_C8_amended initVM "No WebRTC support" (by decide) (by decide)

/-! ## Claim C7: a second file-meta replaces the assembly silently -/

/-- C7 counterexample: a receiver that sees a new `file-meta` while holding
an unfinished assembly does not mark the prior transfer as an error — the
prior record keeps status `transferring`. -/
theorem claim_C7_counterexample :
    ¬ (((runRecv initRecv [(0, .fileMeta "f1" "a" 100 1), (1, .chunk [7]),
          (2, .fileMeta "f2" "b" 5 1)]).transfers.getD 0 default).status
        = .error)
    ∧ ((runRecv initRecv [(0, .fileMeta "f1" "a" 100 1), (1, .chunk [7]),
          (2, .fileMeta "f2" "b" 5 1)]).transfers.getD 0 default).status
        = .transferring := by decide

/-- C7 (amended): a `file-meta` received while an unfinished assembly exists
silently replaces the assembly with a fresh one and appends a fresh
`transferring` receive record; the prior transfer's record is left exactly as
it was — in particular it keeps status `transferring` and is never marked as
an error — and its id is not re-emitted (no existing record is modified). -/
theorem claim_C7_amended (now : Nat) (st : RecvState) (inc : IncomingAssembly)
    (mid name : String) (size tc : Nat)
    (_hinc : st.incoming = some inc) (hmid : mid ≠ "") :
    stepRecv now st (.fileMeta mid name size tc)
      = { st with
          transfers := st.transfers ++
            [⟨mid, name, size, 0, 0, .transferring, .receive, none, some now, none⟩],
          incoming := some ⟨mid, name, size, tc, [], 0, now⟩ }
    ∧ ∀ r ∈ st.transfers, r ∈ (stepRecv now st (.fileMeta mid name size tc)).transfers := by
  have heq : stepRecv now st (.fileMeta mid name size tc)
      = { st with
          transfers := st.transfers ++
            [⟨mid, name, size, 0, 0, .transferring, .receive, none, some now, none⟩],
          incoming := some ⟨mid, name, size, tc, [], 0, now⟩ } := by
    unfold stepRecv
    simp [hmid]
  refine ⟨heq, fun r hr => ?_⟩
  rw [heq]
  exact List.mem_append_left _ hr

/-- Witness for C7: a concrete state holding an unfinished assembly. -/
theorem claim_C7_witness :
    stepRecv 2 (runRecv initRecv [(0, .fileMeta "f1" "a" 100 1), (1, .chunk [7])])
        (.fileMeta "f2" "b" 5 1)
      = { runRecv initRecv [(0, .fileMeta "f1" "a" 100 1), (1, .chunk [7])] with
          transfers := (runRecv initRecv
              [(0, .fileMeta "f1" "a" 100 1), (1, .chunk [7])]).transfers ++
            [⟨"f2", "b", 5, 0, 0, .transferring, .receive, none, some 2, none⟩],
          incoming := some ⟨"f2", "b", 5, 1, [], 0, 2⟩ } :=
  (claim_C7_amended 2 (runRecv initRecv [(0, .fileMeta "f1" "a" 100 1), (1, .chunk [7])])
    ⟨"f1", "a", 100, 1, [[7]], 1, 0⟩ "f2" "b" 5 1 (by decide) (by decide)).1

/-! ## Claim C3 counterexample: progress 100 while still transferring -/

/-- C3 counterexample: after receiving `file-meta {size:1}` and the single
1-byte chunk, the transfer record has progress 100 while its status is still
`transferring` (the `completed` update only happens on `file-complete`), so
`progress = 100 ↔ status = completed` fails at this observable point. -/
theorem claim_C3_counterexample :
    ¬ (∀ r ∈ (runRecv initRecv [(0, .fileMeta "f1" "a" 1 1), (5, .chunk [0])]).transfers,
        (r.progress = 100 ↔ r.status = .completed)) := by decide

/-! ## Claims C5 and C6: decode failures and acceptAnswer -/

/-- Every exception `decodeSignal` lets escape carries the one fixed message:
both the compressed path and the legacy fallback funnel into the same
`throw new Error('Failed to decode signaling data')`. -/
lemma decodeSignalStr_error_msg (s m : String) (h : decodeSignalStr s = .error m) :
    m = decodeFailMsg := by
  unfold decodeSignalStr decodeTrimmed decodeFallback legacyJsonParse at h
  repeat split at h
  all_goals try split at h
  all_goals simp_all

/-- C5 counterexample: `acceptOffer("not base64!")` surfaces `invalidOffer`,
not `invalidOfferFormat`, and constructs a responder peer. -/
theorem claim_C5_counterexample :
    ¬ ((acceptOffer initVM "not base64!").error = some "invalidOfferFormat")
    ∧ (acceptOffer initVM "not base64!").peersConstructed
        = initVM.peersConstructed + 1 := by decide

/-- C5 (amended): on any input whose decode fails (for example
`"not base64!"`), `acceptOffer` sets the connection state to `error` with
`error = "invalidOffer"` — not `invalidOfferFormat`, because `decodeSignal`
rethrows the fixed message `Failed to decode signaling data`, which contains
neither `JSON` nor `base64`, so the codec-originated classification never
fires — and it does construct a responder peer (before decoding) and leaves
it in place. -/
theorem claim_C5_amended (st : VMState) (s m : String)
    (h1 : jsTrim s ≠ "") (h2 : st.connectionState ≠ .connected)
    (hdec : decodeSignalStr (jsTrim s) = .error m) :
    acceptOffer st s
      = { st with
          localSignal := none, signalStatus := none,
          connectionState := .error, error := some "invalidOffer",
          peer := some ⟨false, false, []⟩,
          peersConstructed := st.peersConstructed + 1 } := by
  have hm := decodeSignalStr_error_msg _ _ hdec
  subst hm
  unfold acceptOffer createPeerInstance
  rw [if_neg h1, if_neg h2, hdec]
  have hcl : classifyDecodeError decodeFailMsg "invalidOfferFormat" "invalidOffer"
      = "invalidOffer" := by decide
  simp [hcl]

/-- Witness for C5: the spec's own example input on the initial state. -/
theorem claim_C5_witness :
    acceptOffer initVM "not base64!"
      = { initVM with
          localSignal := none, signalStatus := none,
          connectionState := .error, error := some "invalidOffer",
          peer := some ⟨false, false, []⟩,
          peersConstructed := initVM.peersConstructed + 1 } :=
  claim_C5_amended initVM "not base64!" decodeFailMsg (by decide) (by decide) rfl

/-- A concrete initiator state in `waitingForPeer`, as after `createOffer`
and the peer's single signal emission. -/
def demoAnswerState : VMState :=
  { connectionState := .waitingForPeer, localSignal := some "sig",
    signalStatus := some .ready, error := none,
    peer := some ⟨true, false, []⟩, peersConstructed := 1 }

/-- C6 counterexample: feeding a successfully-decoding answer to the
initiator in `waitingForPeer` does not transition the connection state to
`connecting` — no branch of `acceptAnswer` sets the state on success. -/
theorem claim_C6_counterexample :
    ¬ ((acceptAnswer demoAnswerState (encodeSignalStr ⟨"answer", "v=0\n"⟩)).connectionState
        = .connecting) := by decide

/-- C6 (amended): for the initiator in state `waitingForPeer`, `acceptAnswer`
on a string that decodes successfully clears the error and feeds the decoded
answer to the peer, but the connection state stays `waitingForPeer` — it does
not transition to `connecting`; only the peer's own `connect` event later
moves it to `connected`. -/
theorem claim_C6_amended (st : VMState) (s : String) (sig : SignalBlob) (p : PeerModel)
    (hconn : st.connectionState = .waitingForPeer)
    (hpeer : st.peer = some p) (_hinit : p.initiator = true) (hdest : p.destroyed = false)
    (hne : jsTrim s ≠ "")
    (hdec : decodeSignalStr (jsTrim s) = .ok sig) :
    acceptAnswer st s
      = { st with error := none, peer := some { p with signaled := p.signaled ++ [sig] } }
    ∧ (acceptAnswer st s).connectionState = .waitingForPeer := by
  have hcn : st.connectionState ≠ .connected := by
    rw [hconn]
    intro hx
    cases hx
  have heq : acceptAnswer st s
      = { st with
          error := none,
          peer := some { p with signaled := p.signaled ++ [sig] } } := by
    unfold acceptAnswer
    rw [if_neg hne, if_neg hcn, hdec]
    rw [show ({ st with error := none } : VMState).peer = some p from hpeer]
    simp [hdest]
  refine ⟨heq, ?_⟩
  rw [heq]
  exact hconn

/-- Witness for C6: a concrete answer produced by `encodeSignal` fed to the
concrete initiator state. -/
theorem claim_C6_witness :
    acceptAnswer demoAnswerState (encodeSignalStr ⟨"answer", "v=0\n"⟩)
      = { demoAnswerState with
          error := none, peer := some ⟨true, false, [⟨"answer", "v=0\r\n"⟩]⟩ }
    ∧ (acceptAnswer demoAnswerState
        (encodeSignalStr ⟨"answer", "v=0\n"⟩)).connectionState = .waitingForPeer :=
  claim_C6_amended demoAnswerState (encodeSignalStr ⟨"answer", "v=0\n"⟩)
    ⟨"answer", "v=0\r\n"⟩ ⟨true, false, []⟩ rfl rfl rfl rfl (by decide) rfl

/-! ## Chunk decomposition lemmas (for C1 and C4) -/

/-- `CHUNK_SIZE` as a numeral, for arithmetic automation. -/
lemma chunkSize_eq : CHUNK_SIZE = 65536 := rfl

/-- `chunksOfAux` on the empty list. -/
lemma chunksOfAux_nil (f : Nat) : chunksOfAux f [] = [] := by
  cases f <;> rfl

/-- `chunksOfAux` on a non-empty list with positive fuel. -/
lemma chunksOfAux_cons (f : Nat) (c : Nat) (cs : List Nat) :
    chunksOfAux (f + 1) (c :: cs)
      = nextChunk (c :: cs) :: chunksOfAux f ((c :: cs).drop CHUNK_SIZE) := rfl

/-- The fuel is irrelevant as long as it exceeds the list length. -/
lemma chunksOfAux_congr (f1 : Nat) : ∀ (f2 : Nat) (rest : List Nat),
    rest.length < f1 → rest.length < f2 → chunksOfAux f1 rest = chunksOfAux f2 rest := by
  induction f1 with
  | zero => intro f2 rest h1 _; omega
  | succ f ih =>
    intro f2 rest h1 h2
    cases rest with
    | nil => rw [chunksOfAux_nil, chunksOfAux_nil]
    | cons c cs =>
      cases f2 with
      | zero => simp at h2
      | succ g =>
        rw [chunksOfAux_cons, chunksOfAux_cons]
        congr 1
        apply ih
        · simp only [List.length_drop, List.length_cons, chunkSize_eq] at *
          omega
        · simp only [List.length_drop, List.length_cons, chunkSize_eq] at *
          omega

/-- Unfolding equation of `chunksOf` on a non-empty list. -/
lemma chunksOf_cons (c : Nat) (cs : List Nat) :
    chunksOf (c :: cs) = nextChunk (c :: cs) :: chunksOf ((c :: cs).drop CHUNK_SIZE) := by
  unfold chunksOf
  rw [chunksOfAux_cons]
  congr 1
  apply chunksOfAux_congr
  · simp only [List.length_drop, List.length_cons, chunkSize_eq]
    omega
  · simp only [List.length_drop, List.length_cons, chunkSize_eq]
    omega

/-- The loop produces exactly `ceil(size / CHUNK_SIZE)` chunks. -/
lemma chunksOf_length_aux : ∀ (n : Nat) (bytes : List Nat), bytes.length ≤ n →
    (chunksOf bytes).length = totalChunksOf bytes.length := by
  intro n
  induction n with
  | zero =>
    intro bytes h
    have hb : bytes = [] := List.eq_nil_of_length_eq_zero (by omega)
    subst hb
    simp [chunksOf, chunksOfAux_nil, totalChunksOf, chunkSize_eq]
  | succ m ih =>
    intro bytes h
    cases bytes with
    | nil => simp [chunksOf, chunksOfAux_nil, totalChunksOf, chunkSize_eq]
    | cons c cs =>
      rw [chunksOf_cons]
      simp only [List.length_cons]
      rw [ih ((c :: cs).drop CHUNK_SIZE)
        (by simp only [List.length_drop, List.length_cons, chunkSize_eq] at *; omega)]
      simp only [List.length_drop, List.length_cons]
      unfold totalChunksOf
      simp only [chunkSize_eq]
      omega

/-- The chunk decomposition has exactly `totalChunks` chunks. -/
lemma chunksOf_length (bytes : List Nat) :
    (chunksOf bytes).length = totalChunksOf bytes.length :=
  chunksOf_length_aux bytes.length bytes le_rfl

/-- The chunk sizes sum to the file size. -/
lemma chunksOf_sum_aux : ∀ (n : Nat) (bytes : List Nat), bytes.length ≤ n →
    ((chunksOf bytes).map List.length).sum = bytes.length := by
  intro n
  induction n with
  | zero =>
    intro bytes h
    have hb : bytes = [] := List.eq_nil_of_length_eq_zero (by omega)
    subst hb
    simp [chunksOf, chunksOfAux_nil]
  | succ m ih =>
    intro bytes h
    cases bytes with
    | nil => simp [chunksOf, chunksOfAux_nil]
    | cons c cs =>
      rw [chunksOf_cons]
      simp only [List.map_cons, List.sum_cons]
      rw [ih ((c :: cs).drop CHUNK_SIZE)
        (by simp only [List.length_drop, List.length_cons, chunkSize_eq] at *; omega)]
      simp only [nextChunk, List.length_take, List.length_drop, List.length_cons, chunkSize_eq]
      omega

/-- The chunk sizes sum to the file size. -/
lemma chunksOf_sum (bytes : List Nat) :
    ((chunksOf bytes).map List.length).sum = bytes.length :=
  chunksOf_sum_aux bytes.length bytes le_rfl

/-- One `totalChunks` step. -/
lemma totalChunksOf_succ (len : Nat) (h : 1 ≤ len) :
    totalChunksOf len = totalChunksOf (len - CHUNK_SIZE) + 1 := by
  unfold totalChunksOf
  simp only [chunkSize_eq]
  omega

/-- The `i`-th chunk has size `min CHUNK_SIZE (size - i * CHUNK_SIZE)`: every
chunk is `CHUNK_SIZE` bytes except a possibly smaller final one. -/
lemma chunksOf_sizes_aux : ∀ (n : Nat) (bytes : List Nat), bytes.length ≤ n →
    (chunksOf bytes).map List.length
      = (List.range (totalChunksOf bytes.length)).map
          (fun i => min CHUNK_SIZE (bytes.length - i * CHUNK_SIZE)) := by
  intro n
  induction n with
  | zero =>
    intro bytes h
    have hb : bytes = [] := List.eq_nil_of_length_eq_zero (by omega)
    subst hb
    simp [chunksOf, chunksOfAux_nil, show totalChunksOf 0 = 0 from rfl]
  | succ m ih =>
    intro bytes h
    cases bytes with
    | nil => simp [chunksOf, chunksOfAux_nil, show totalChunksOf 0 = 0 from rfl]
    | cons c cs =>
      rw [chunksOf_cons]
      simp only [List.map_cons]
      rw [ih ((c :: cs).drop CHUNK_SIZE)
        (by simp only [List.length_drop, List.length_cons, chunkSize_eq] at *; omega)]
      rw [totalChunksOf_succ (c :: cs).length (by simp)]
      rw [List.range_succ_eq_map]
      rw [List.map_cons, List.length_drop, List.map_map]
      rw [List.cons.injEq]
      constructor
      · show ((c :: cs).take CHUNK_SIZE).length
          = min CHUNK_SIZE ((c :: cs).length - 0 * CHUNK_SIZE)
        rw [List.length_take, Nat.zero_mul, Nat.sub_zero]
      · apply List.map_congr_left
        intro i _
        show min CHUNK_SIZE ((c :: cs).length - CHUNK_SIZE - i * CHUNK_SIZE)
          = min CHUNK_SIZE ((c :: cs).length - (i + 1) * CHUNK_SIZE)
        rw [Nat.add_mul, Nat.one_mul, Nat.sub_sub, Nat.add_comm CHUNK_SIZE (i * CHUNK_SIZE)]

/-- Chunk size profile of a file. -/
lemma chunksOf_sizes (bytes : List Nat) :
    (chunksOf bytes).map List.length
      = (List.range (totalChunksOf bytes.length)).map
          (fun i => min CHUNK_SIZE (bytes.length - i * CHUNK_SIZE)) :=
  chunksOf_sizes_aux bytes.length bytes le_rfl

/-- With no cancel, the send loop emits exactly the chunk decomposition and
does not fail. -/
lemma sendLoop_none_eq : ∀ (f : Nat) (rest : List Nat) (i : Nat), rest.length < f →
    sendLoopAux none f rest i = ((chunksOf rest).map WireMsg.chunk, false) := by
  intro f
  induction f with
  | zero => intro rest i h; omega
  | succ g ih =>
    intro rest i h
    cases rest with
    | nil => simp [sendLoopAux, chunksOf, chunksOfAux_nil]
    | cons c cs =>
      show (if cancelObs none i then ([.fileCancel none], true)
        else
          let r := sendLoopAux none g ((c :: cs).drop CHUNK_SIZE) (i + 1)
          (.chunk (nextChunk (c :: cs)) :: r.1, r.2)) = _
      rw [ih ((c :: cs).drop CHUNK_SIZE) (i + 1)
        (by simp only [List.length_drop, List.length_cons, chunkSize_eq] at *; omega)]
      simp [cancelObs, chunksOf_cons]

/-- With a cancel observed from iteration `k` on and at least one chunk still
to send, the loop emits the first `k - i` chunks and then its bare
`file-cancel`, reporting failure. -/
lemma sendLoop_cancel_eq : ∀ (f k : Nat) (rest : List Nat) (i : Nat), rest.length < f →
    i ≤ k → (k - i) * CHUNK_SIZE < rest.length →
    sendLoopAux (some k) f rest i
      = (((chunksOf rest).take (k - i)).map WireMsg.chunk ++ [.fileCancel none], true) := by
  intro f
  induction f with
  | zero => intro k rest i h _ _; omega
  | succ g ih =>
    intro k rest i h hik hkc
    cases rest with
    | nil => simp at hkc
    | cons c cs =>
      show (if cancelObs (some k) i then ([.fileCancel none], true)
        else
          let r := sendLoopAux (some k) g ((c :: cs).drop CHUNK_SIZE) (i + 1)
          (.chunk (nextChunk (c :: cs)) :: r.1, r.2)) = _
      by_cases hki : k ≤ i
      · have hk0 : k - i = 0 := by omega
        simp [cancelObs, hki, hk0]
      · have hobs : cancelObs (some k) i = false := by
          simp [cancelObs]
          omega
        rw [hobs]
        simp only [Bool.false_eq_true, if_false]
        rw [ih k ((c :: cs).drop CHUNK_SIZE) (i + 1)
          (by simp only [List.length_drop, List.length_cons, chunkSize_eq] at *; omega)
          (by omega)
          (by simp only [List.length_drop, List.length_cons, chunkSize_eq] at *; omega)]
        rw [chunksOf_cons]
        have hsub : k - i = (k - (i + 1)) + 1 := by omega
        rw [hsub, List.take_succ_cons, List.map_cons]
        rfl

/-! ## Claim C1: the wire trace of a clean single-file send -/

/-- C1 (confirmed): for every file of `N` bytes enqueued via `sendFiles`, the
send loop emits exactly one `file-meta` with `totalChunks = ceil(N/65536)`,
then exactly that many binary chunk messages whose sizes sum to `N` — the
`i`-th chunk carries `min 65536 (N - i*65536)` bytes, so every chunk is
65536 bytes except a possibly smaller final one — then one `file-complete`;
in particular a 98,304-byte file yields chunks of 65,536 and 32,768 bytes. -/
theorem claim_C1_send_wire (id name : String) (bytes : List Nat) :
    sendFileRun id name bytes none
      = (WireMsg.fileMeta id name bytes.length (totalChunksOf bytes.length)
          :: ((chunksOf bytes).map WireMsg.chunk ++ [.fileComplete]), .completed)
    ∧ (chunksOf bytes).length = totalChunksOf bytes.length
    ∧ ((chunksOf bytes).map List.length).sum = bytes.length
    ∧ (chunksOf bytes).map List.length
        = (List.range (totalChunksOf bytes.length)).map
            (fun i => min CHUNK_SIZE (bytes.length - i * CHUNK_SIZE))
    ∧ (chunksOf (List.replicate 98304 0)).map List.length = [65536, 32768] := by
  refine ⟨?_, chunksOf_length bytes, chunksOf_sum bytes, chunksOf_sizes bytes, ?_⟩
  · show (WireMsg.fileMeta id name bytes.length (totalChunksOf bytes.length)
        :: ((sendLoopAux none (bytes.length + 1) bytes 0).1 ++ [.fileComplete]),
        TransferStatus.completed) = _
    rw [sendLoop_none_eq (bytes.length + 1) bytes 0 (by omega)]
  · rw [chunksOf_sizes (List.replicate 98304 0)]
    rw [List.length_replicate]
    rw [show totalChunksOf 98304 = 2 from rfl]
    decide

/-! ## Claim C4: cancelling an in-flight send -/

/-- The first `k` chunk messages have length `k` when the cancel arrives
before the last chunk. -/
lemma takeChunks_length (bytes : List Nat) (k : Nat) (hk : k * CHUNK_SIZE < bytes.length) :
    (((chunksOf bytes).take k).map WireMsg.chunk).length = k := by
  rw [List.length_map, List.length_take, chunksOf_length]
  have hx : k < totalChunksOf bytes.length := by
    unfold totalChunksOf
    rw [chunkSize_eq] at hk ⊢
    omega
  omega

/-- The wire trace of the cancel-in-flight scenario, in closed form: the
meta, the first `k` chunks, `cancelTransfer`'s `file-cancel {id}`, and the
loop's bare `file-cancel`. -/
lemma cancelWire_eq (id name : String) (bytes : List Nat) (k : Nat)
    (hk : k * CHUNK_SIZE < bytes.length) :
    cancelInFlightWire id name bytes k
      = WireMsg.fileMeta id name bytes.length (totalChunksOf bytes.length)
          :: (((chunksOf bytes).take k).map WireMsg.chunk
              ++ [.fileCancel (some id), .fileCancel none]) := by
  have hlen1 := takeChunks_length bytes k hk
  unfold cancelInFlightWire
  rw [sendLoop_cancel_eq (bytes.length + 1) k bytes 0 (by omega) (Nat.zero_le k)
    (by simpa using hk)]
  rw [show k - 0 = k from rfl]
  rw [show cancelTransferEmits .transferring true id = [WireMsg.fileCancel (some id)] by
    simp [cancelTransferEmits]]
  dsimp only
  rw [List.take_left' hlen1, List.drop_left' hlen1]
  simp

/-- Chunk messages are filtered out by the `file-cancel` filter. -/
lemma filter_map_chunk (l : List (List Nat)) :
    (l.map WireMsg.chunk).filter isCancelMsg = [] := by
  induction l with
  | nil => rfl
  | cons x xs ih => simp [List.filter_cons, isCancelMsg, ih]

/-- The cancel-in-flight trace contains exactly two `file-cancel` messages:
first `cancelTransfer`'s (with the id), then the loop's (without). -/
lemma cancelWire_filter (id name : String) (bytes : List Nat) (k : Nat)
    (hk : k * CHUNK_SIZE < bytes.length) :
    (cancelInFlightWire id name bytes k).filter isCancelMsg
      = [.fileCancel (some id), .fileCancel none] := by
  rw [cancelWire_eq id name bytes k hk, List.filter_cons, List.filter_append,
    filter_map_chunk]
  simp [isCancelMsg, List.filter_cons]

/-- C4 counterexample: cancelling an in-flight transfer does not put exactly
one `file-cancel` on the wire — for a 65,537-byte file cancelled after its
first chunk, two are emitted (`cancelTransfer`'s, then the loop's). -/
theorem claim_C4_counterexample :
    ¬ (((cancelInFlightWire "A" "big.bin" (List.replicate (CHUNK_SIZE + 1) 0) 1).filter
        isCancelMsg).length = 1) := by
  have hk : 1 * CHUNK_SIZE < (List.replicate (CHUNK_SIZE + 1) 0).length := by
    rw [List.length_replicate, Nat.one_mul]
    omega
  rw [cancelWire_filter "A" "big.bin" (List.replicate (CHUNK_SIZE + 1) 0) 1 hk]
  simp

/-- C4 (amended): when a send-direction transfer `A` is cancelled via
`cancelTransfer` while `transferring` with chunks still to send, exactly two
`file-cancel` messages are emitted on the wire: first `cancelTransfer`'s own
message carrying `id = A`, then the send loop's bare `file-cancel` without an
id.  No binary chunk for `A` is sent after the cancel is observed, and `A`'s
final status is `cancelled`. -/
theorem claim_C4_cancel_in_flight (id name : String) (bytes : List Nat) (k : Nat)
    (hk : k * CHUNK_SIZE < bytes.length) :
    cancelInFlightWire id name bytes k
      = WireMsg.fileMeta id name bytes.length (totalChunksOf bytes.length)
          :: (((chunksOf bytes).take k).map WireMsg.chunk
              ++ [.fileCancel (some id), .fileCancel none])
    ∧ (cancelInFlightWire id name bytes k).filter isCancelMsg
        = [.fileCancel (some id), .fileCancel none]
    ∧ ((cancelInFlightWire id name bytes k).filter isCancelMsg).length = 2
    ∧ (∀ m ∈ (cancelInFlightWire id name bytes k).drop (k + 2), isChunkMsg m = false)
    ∧ (sendFileRun id name bytes (some k)).2 = .cancelled := by
  have heq := cancelWire_eq id name bytes k hk
  have hfil := cancelWire_filter id name bytes k hk
  have hlen1 := takeChunks_length bytes k hk
  have hdrop : (cancelInFlightWire id name bytes k).drop (k + 2)
      = [WireMsg.fileCancel none] := by
    rw [heq]
    rw [show (((chunksOf bytes).take k).map WireMsg.chunk
          ++ [WireMsg.fileCancel (some id), WireMsg.fileCancel none])
        = ((((chunksOf bytes).take k).map WireMsg.chunk
          ++ [WireMsg.fileCancel (some id)]) ++ [WireMsg.fileCancel none]) by
      simp]
    rw [show k + 2 = (((chunksOf bytes).take k).map WireMsg.chunk
          ++ [WireMsg.fileCancel (some id)]).length + 1 by
      rw [List.length_append, hlen1]
      rfl]
    rw [List.drop_succ_cons, List.drop_left]
  refine ⟨heq, hfil, by rw [hfil]; rfl, ?_, rfl⟩
  intro m hm
  rw [hdrop] at hm
  simp only [List.mem_singleton] at hm
  subst hm
  rfl

/-- Witness for C4: the 65,537-byte file cancelled after its first chunk. -/
theorem claim_C4_witness :
    ((cancelInFlightWire "A" "big.bin" (List.replicate (CHUNK_SIZE + 1) 0) 1).filter
        isCancelMsg).length = 2 :=
  (claim_C4_cancel_in_flight "A" "big.bin" (List.replicate (CHUNK_SIZE + 1) 0) 1
    (by rw [List.length_replicate, Nat.one_mul]; omega)).2.2.1

/-! ## Claim C3: progress/status relation at observable points -/

/-- The receive-side invariant: every completed record shows progress 100,
and no record sharing the current assembly's id is completed (the assembly
only exists between its `file-meta` and its `file-complete`). -/
def RecvInv (st : RecvState) : Prop :=
  (∀ r ∈ st.transfers, r.status = .completed → r.progress = 100)
  ∧ (∀ inc : IncomingAssembly, st.incoming = some inc →
      ∀ r ∈ st.transfers, r.id = inc.id → r.status ≠ .completed)

/-- Marking matching records cancelled preserves the id list. -/
lemma map_cancel_ids (l : List FileTransfer) (cid : String) :
    (l.map fun t =>
        if t.id = cid then { t with status := .cancelled, speed := 0 } else t).map (·.id)
      = l.map (·.id) := by
  rw [List.map_map]
  apply List.map_congr_left
  intro t _
  by_cases h : t.id = cid <;> simp [h]

/-- Marking matching records completed preserves the id list. -/
lemma map_complete_ids (l : List FileTransfer) (cid : String) (now : Nat) :
    (l.map fun t =>
        if t.id = cid then
          { t with progress := 100, status := .completed, speed := 0, endTime := some now }
        else t).map (·.id)
      = l.map (·.id) := by
  rw [List.map_map]
  apply List.map_congr_left
  intro t _
  by_cases h : t.id = cid <;> simp [h]

/-- A progress/speed/eta update preserves the id list. -/
lemma map_chunkupd_ids (l : List FileTransfer) (cid : String) (prog : Nat) (sp : ℚ)
    (eta : Option ℚ) :
    (l.map fun t =>
        if t.id = cid then { t with progress := prog, speed := sp, eta := eta } else t).map
        (·.id)
      = l.map (·.id) := by
  rw [List.map_map]
  apply List.map_congr_left
  intro t _
  by_cases h : t.id = cid <;> simp [h]

/-- One `handleData` step only appends the ids of its `file-meta` messages
to the transfer list (when the meta ids are non-empty strings). -/
lemma stepRecv_ids (now : Nat) (st : RecvState) (m : WireMsg)
    (hm : ∀ i n s tc, m = .fileMeta i n s tc → i ≠ "") :
    (stepRecv now st m).transfers.map (·.id)
      = st.transfers.map (·.id) ++ metaIds [m] := by
  cases m with
  | fileMeta mid name size tc =>
    have hne : mid ≠ "" := hm mid name size tc rfl
    simp [stepRecv, metaIds, hne]
  | fileComplete =>
    cases hi : st.incoming with
    | none => simp [stepRecv, hi, metaIds]
    | some inc =>
      simp [stepRecv, hi, metaIds]
      all_goals intro a _
      all_goals split <;> rfl
  | fileCancel oid =>
    rcases oid with _ | i
    · cases hi : st.incoming with
      | none => simp [stepRecv, hi, metaIds]
      | some inc =>
        by_cases hje : inc.id = ""
        · simp [stepRecv, hi, hje, metaIds]
        · simp [stepRecv, hi, hje, metaIds]
          all_goals intro a _
          all_goals split <;> rfl
    · by_cases hie : i = ""
      · subst hie
        cases hi : st.incoming with
        | none => simp [stepRecv, hi, metaIds]
        | some inc =>
          by_cases hje : inc.id = ""
          · simp [stepRecv, hi, hje, metaIds]
          · simp [stepRecv, hi, hje, metaIds]
            all_goals intro a _
            all_goals split <;> rfl
      · cases hi : st.incoming with
        | none =>
          simp [stepRecv, hi, hie, metaIds]
          all_goals intro a _
          all_goals split <;> rfl
        | some inc =>
          by_cases hji : i = inc.id
          · have hie2 : ¬(inc.id = "") := by
              rw [← hji]
              exact hie
            simp [stepRecv, hi, hie, hji, hie2, metaIds]
            all_goals intro a _
            all_goals split <;> rfl
          · simp [stepRecv, hi, hie, hji, metaIds]
            all_goals intro a _
            all_goals split <;> rfl
  | chat text ts => simp [stepRecv, metaIds]
  | chunk data =>
    cases hi : st.incoming with
    | none => simp [stepRecv, hi, metaIds]
    | some inc =>
      simp [stepRecv, hi, metaIds]
      all_goals intro a _
      all_goals split <;> rfl

/-- Every `handleData` step preserves the receive-side invariant, provided a
`file-meta` id is a non-empty string that is fresh for the transfer list. -/
lemma stepRecv_inv (now : Nat) (st : RecvState) (m : WireMsg) (hInv : RecvInv st)
    (hfresh : ∀ i n s tc, m = .fileMeta i n s tc →
      i ≠ "" ∧ ∀ r ∈ st.transfers, r.id ≠ i) :
    RecvInv (stepRecv now st m) := by
  obtain ⟨hA, hB⟩ := hInv
  cases m with
  | fileMeta mid name size tc =>
    obtain ⟨hne, hfr⟩ := hfresh mid name size tc rfl
    have hstep : stepRecv now st (.fileMeta mid name size tc)
        = { st with
            incoming := some ⟨mid, name, size, tc, [], 0, now⟩,
            transfers := st.transfers ++
              [⟨mid, name, size, 0, 0, .transferring, .receive, none, some now, none⟩] } := by
      simp [stepRecv, hne]
    rw [hstep]
    constructor
    · intro r hr hc
      rcases List.mem_append.mp hr with h | h
      · exact hA r h hc
      · rw [List.mem_singleton] at h
        subst h
        simp at hc
    · intro inc hinc r hr hid
      have hincid : inc.id = mid := by
        have := Option.some.inj hinc
        rw [← this]
      rcases List.mem_append.mp hr with h | h
      · exact absurd (hincid ▸ hid) (hfr r h)
      · rw [List.mem_singleton] at h
        subst h
        simp
  | fileComplete =>
    cases hi : st.incoming with
    | none =>
      have hstep : stepRecv now st .fileComplete = st := by
        simp [stepRecv, hi]
      rw [hstep]
      exact ⟨hA, hB⟩
    | some inc0 =>
      have hstep : stepRecv now st .fileComplete
          = { st with
              transfers := st.transfers.map fun t =>
                if t.id = inc0.id then
                  { t with
                    progress := 100, status := .completed, speed := 0,
                    endTime := some now }
                else t,
              incoming := none } := by
        simp [stepRecv, hi]
      rw [hstep]
      constructor
      · intro r hr hc
        obtain ⟨t, ht, rfl⟩ := List.mem_map.mp hr
        by_cases h : t.id = inc0.id
        · simp [h]
        · simp only [h, if_false] at hc ⊢
          exact hA t ht hc
      · intro inc hinc
        cases hinc
  | fileCancel oid =>
    have hfacts : ((stepRecv now st (.fileCancel oid)).transfers = st.transfers
          ∨ ∃ cid, (stepRecv now st (.fileCancel oid)).transfers
              = st.transfers.map fun t =>
                  if t.id = cid then { t with status := .cancelled, speed := 0 } else t)
        ∧ ((stepRecv now st (.fileCancel oid)).incoming = st.incoming
          ∨ (stepRecv now st (.fileCancel oid)).incoming = none) := by
      rcases oid with _ | i
      · cases hi : st.incoming with
        | none => exact ⟨Or.inl (by simp [stepRecv, hi]), Or.inl (by simp [stepRecv, hi])⟩
        | some inc0 =>
          by_cases hje : inc0.id = ""
          · exact ⟨Or.inl (by simp [stepRecv, hi, hje]),
              Or.inr (by simp [stepRecv, hi, hje])⟩
          · exact ⟨Or.inr ⟨inc0.id, by simp [stepRecv, hi, hje]⟩,
              Or.inr (by simp [stepRecv, hi, hje])⟩
      · by_cases hie : i = ""
        · subst hie
          cases hi : st.incoming with
          | none => exact ⟨Or.inl (by simp [stepRecv, hi]), Or.inl (by simp [stepRecv, hi])⟩
          | some inc0 =>
            by_cases hje : inc0.id = ""
            · exact ⟨Or.inl (by simp [stepRecv, hi, hje]),
                Or.inr (by simp [stepRecv, hi, hje])⟩
            · exact ⟨Or.inr ⟨inc0.id, by simp [stepRecv, hi, hje]⟩,
                Or.inr (by simp [stepRecv, hi, hje])⟩
        · cases hi : st.incoming with
          | none =>
            exact ⟨Or.inr ⟨i, by simp [stepRecv, hi, hie]⟩,
              Or.inl (by simp [stepRecv, hi, hie])⟩
          | some inc0 =>
            by_cases hji : i = inc0.id
            · have hie2 : ¬(inc0.id = "") := by
                rw [← hji]
                exact hie
              exact ⟨Or.inr ⟨i, by simp [stepRecv, hi, hie, hji, hie2]⟩,
                Or.inr (by simp [stepRecv, hi, hie, hji, hie2])⟩
            · exact ⟨Or.inr ⟨i, by simp [stepRecv, hi, hie, hji]⟩,
                Or.inl (by simp [stepRecv, hi, hie, hji])⟩
    obtain ⟨hT, hI⟩ := hfacts
    constructor
    · intro r hr hc
      rcases hT with h | ⟨cid, h⟩
      · rw [h] at hr
        exact hA r hr hc
      · rw [h] at hr
        obtain ⟨t, ht, rfl⟩ := List.mem_map.mp hr
        by_cases hq : t.id = cid
        · simp [hq] at hc
        · simp only [hq, if_false] at hc ⊢
          exact hA t ht hc
    · intro inc hinc r hr hid
      rcases hI with h | h
      · rw [h] at hinc
        rcases hT with h2 | ⟨cid, h2⟩
        · rw [h2] at hr
          exact hB inc hinc r hr hid
        · rw [h2] at hr
          obtain ⟨t, ht, rfl⟩ := List.mem_map.mp hr
          by_cases hq : t.id = cid
          · simp [hq]
          · simp only [hq, if_false] at hid ⊢
            exact hB inc hinc t ht hid
      · rw [h] at hinc
        cases hinc
  | chat text ts =>
    have hstep1 : (stepRecv now st (.chat text ts)).transfers = st.transfers := by
      simp [stepRecv]
    have hstep2 : (stepRecv now st (.chat text ts)).incoming = st.incoming := by
      simp [stepRecv]
    constructor
    · intro r hr hc
      rw [hstep1] at hr
      exact hA r hr hc
    · intro inc hinc r hr hid
      rw [hstep2] at hinc
      rw [hstep1] at hr
      exact hB inc hinc r hr hid
  | chunk data =>
    cases hi : st.incoming with
    | none =>
      have hstep : stepRecv now st (.chunk data) = st := by
        simp [stepRecv, hi]
      rw [hstep]
      exact ⟨hA, hB⟩
    | some inc0 =>
      have hstep1 : ∃ prog sp eta, (stepRecv now st (.chunk data)).transfers
          = st.transfers.map fun t =>
              if t.id = inc0.id then
                { t with progress := prog, speed := sp, eta := eta }
              else t := by
        refine ⟨progressOf (inc0.receivedBytes + data.length) inc0.size, ?_, ?_, ?_⟩
        · exact if 0 < ((now : ℚ) - (inc0.startTime : ℚ)) / 1000 then
            ((inc0.receivedBytes + data.length : Nat) : ℚ)
              / (((now : ℚ) - (inc0.startTime : ℚ)) / 1000) else 0
        · exact if 0 < (if 0 < ((now : ℚ) - (inc0.startTime : ℚ)) / 1000 then
              ((inc0.receivedBytes + data.length : Nat) : ℚ)
                / (((now : ℚ) - (inc0.startTime : ℚ)) / 1000) else 0) then
            some (((inc0.size : ℚ) - ((inc0.receivedBytes + data.length : Nat) : ℚ))
              / (if 0 < ((now : ℚ) - (inc0.startTime : ℚ)) / 1000 then
                  ((inc0.receivedBytes + data.length : Nat) : ℚ)
                    / (((now : ℚ) - (inc0.startTime : ℚ)) / 1000) else 0))
            else none
        · simp [stepRecv, hi]
      have hstep2 : ∃ inc2 : IncomingAssembly, (stepRecv now st (.chunk data)).incoming
          = some inc2 ∧ inc2.id = inc0.id := by
        refine ⟨{ inc0 with
          chunks := inc0.chunks ++ [data],
          receivedBytes := inc0.receivedBytes + data.length }, ?_, rfl⟩
        simp [stepRecv, hi]
      obtain ⟨prog, sp, eta, hT⟩ := hstep1
      obtain ⟨inc2, hI, hI2⟩ := hstep2
      constructor
      · intro r hr hc
        rw [hT] at hr
        obtain ⟨t, ht, rfl⟩ := List.mem_map.mp hr
        by_cases hq : t.id = inc0.id
        · simp only [hq, if_true, if_pos] at hc
          exact absurd hc (hB inc0 hi t ht hq)
        · simp only [hq, if_false] at hc ⊢
          exact hA t ht hc
      · intro inc hinc r hr hid
        rw [hI] at hinc
        have hinc2 : inc = inc2 := (Option.some.inj hinc).symm
        subst hinc2
        rw [hT] at hr
        obtain ⟨t, ht, rfl⟩ := List.mem_map.mp hr
        by_cases hq : t.id = inc0.id
        · simp only [hq, if_true, if_pos]
          exact hB inc0 hi t ht hq
        · simp only [hq, if_false] at hid ⊢
          exact hB inc0 hi t ht (hI2 ▸ hid)

/-- `metaIds` distributes over cons. -/
lemma metaIds_cons (m : WireMsg) (l : List WireMsg) :
    metaIds (m :: l) = metaIds [m] ++ metaIds l := by
  cases m <;> simp [metaIds]

/-- Processing a stream whose `file-meta` ids are non-empty, pairwise
distinct, and fresh for the current transfer list preserves the receive-side
invariant. -/
lemma runRecv_inv : ∀ (msgs : List (Nat × WireMsg)) (st : RecvState),
    RecvInv st →
    (metaIds (msgs.map Prod.snd)).Nodup →
    (∀ i ∈ metaIds (msgs.map Prod.snd), i ≠ "") →
    (∀ i ∈ metaIds (msgs.map Prod.snd), ∀ r ∈ st.transfers, r.id ≠ i) →
    RecvInv (runRecv st msgs) := by
  intro msgs
  induction msgs with
  | nil =>
    intro st h _ _ _
    exact h
  | cons p rest ih =>
    obtain ⟨now, m⟩ := p
    intro st hInv hnd hne hfr
    have hsplit : metaIds (((now, m) :: rest).map Prod.snd)
        = metaIds [m] ++ metaIds (rest.map Prod.snd) := by
      rw [List.map_cons]
      exact metaIds_cons m (rest.map Prod.snd)
    rw [hsplit] at hnd hne hfr
    have hmne : ∀ i n s tc, m = .fileMeta i n s tc → i ≠ "" := by
      intro i n s tc hm
      subst hm
      exact hne i (by simp [metaIds])
    show RecvInv (runRecv (stepRecv now st m) rest)
    apply ih
    · apply stepRecv_inv now st m hInv
      intro i n s tc hm
      subst hm
      have hmem : i ∈ metaIds [WireMsg.fileMeta i n s tc] ++ metaIds (rest.map Prod.snd) := by
        simp [metaIds]
      exact ⟨hne i hmem, hfr i hmem⟩
    · exact hnd.of_append_right
    · intro i hi
      exact hne i (List.mem_append_right _ hi)
    · intro i hi r hr
      have hidmem : r.id ∈ (stepRecv now st m).transfers.map (·.id) :=
        List.mem_map_of_mem _ hr
      rw [stepRecv_ids now st m hmne] at hidmem
      rcases List.mem_append.mp hidmem with h | h
      · obtain ⟨r0, hr0, hid0⟩ := List.mem_map.mp h
        intro heq
        exact hfr i (List.mem_append_right _ hi) r0 hr0 (hid0.trans heq)
      · intro heq
        have hd := List.disjoint_of_nodup_append hnd
        exact hd (heq ▸ h) hi

/-- The per-chunk observations of the send loop are never `completed`: the
loop publishes `transferring` updates and possibly one `cancelled` update;
`completed` only appears in the terminal update after `file-complete`. -/
lemma sendObsLoop_no_completed : ∀ (fuel size : Nat) (cancelAt : Option Nat)
    (rest : List Nat) (i sent p : Nat) (s : TransferStatus),
    (p, s) ∈ sendObsLoop size cancelAt fuel rest i sent → s ≠ .completed := by
  intro fuel
  induction fuel with
  | zero =>
    intro size cA rest i sent p s h
    simp [sendObsLoop] at h
  | succ g ih =>
    intro size cA rest i sent p s h
    cases rest with
    | nil => simp [sendObsLoop] at h
    | cons c cs =>
      by_cases hc : cancelObs cA i = true
      · simp [sendObsLoop, hc] at h
        rw [h.2]
        simp
      · simp only [sendObsLoop, hc, Bool.false_eq_true, if_false, List.mem_cons] at h
        rcases h with h | h
        · simp only [Prod.mk.injEq] at h
          rw [h.2]
          simp
        · exact ih size cA ((c :: cs).drop CHUNK_SIZE) (i + 1) _ p s h

/-- C3 (amended): at every observable point, `status = completed` implies
`progress = 100` — on the receive side for any message stream whose
`file-meta` ids are non-empty and pairwise distinct, and on the send side for
any file and cancel schedule.  The converse direction of the original claim
is false: progress reaches 100 one update before the completion update (see
the counterexample), so `progress = 100` does not imply `status =
completed`. -/
theorem claim_C3_amended :
    (∀ (msgs : List (Nat × WireMsg)),
        (metaIds (msgs.map Prod.snd)).Nodup →
        (∀ i ∈ metaIds (msgs.map Prod.snd), i ≠ "") →
        ∀ r ∈ (runRecv initRecv msgs).transfers,
          r.status = .completed → r.progress = 100)
    ∧ (∀ (bytes : List Nat) (cancelAt : Option Nat) (p : Nat) (s : TransferStatus),
        (p, s) ∈ sendObs bytes cancelAt → s = .completed → p = 100) := by
  constructor
  · intro msgs hnd hne
    exact (runRecv_inv msgs initRecv
      ⟨by simp [initRecv], by simp [initRecv]⟩ hnd hne (by simp [initRecv])).1
  · intro bytes cA p s h hs
    subst hs
    cases cA with
    | none =>
      simp only [sendObs, List.mem_cons, List.mem_append] at h
      rcases h with (h | h | h) | (h | h)
      · simp at h
      · simp at h
      · exact absurd rfl (sendObsLoop_no_completed _ _ _ _ _ _ _ _ h)
      · simp only [Prod.mk.injEq] at h
        exact h.1
      · simp at h
    | some k =>
      simp only [sendObs, List.mem_cons, List.mem_append] at h
      rcases h with (h | h | h) | h
      · simp at h
      · simp at h
      · exact absurd rfl (sendObsLoop_no_completed _ _ _ _ _ _ _ _ h)
      · simp at h

/-- The default-headed element of a non-empty list is a member. -/
lemma getD_zero_mem {α : Type} (l : List α) (d : α) (h : l ≠ []) : l.getD 0 d ∈ l := by
  cases l with
  | nil => exact absurd rfl h
  | cons a as =>
    show a ∈ a :: as
    exact List.mem_cons_self a as

/-- Witness for C3: the three-message stream meta/chunk/complete yields a
completed record, and its progress is 100. -/
theorem claim_C3_witness :
    ((runRecv initRecv [(0, .fileMeta "f1" "a" 1 1), (5, .chunk [0]),
        (9, .fileComplete)]).transfers.getD 0 default).progress = 100 :=
  claim_C3_amended.1 [(0, .fileMeta "f1" "a" 1 1), (5, .chunk [0]), (9, .fileComplete)]
    (by decide) (by decide) _
    (getD_zero_mem _ default (by decide))
    (by decide)

/-! ## Claim C2: the codec round trip on the SDP body -/

/-- No line produced by the `\r?\n` split contains a line feed. -/
lemma splitNL_no_lf_aux : ∀ (n : Nat) (cs : List Char), cs.length ≤ n →
    ∀ l ∈ splitNL cs, '\n' ∉ l := by
  intro n
  induction n with
  | zero =>
    intro cs h l hl
    have hc : cs = [] := List.eq_nil_of_length_eq_zero (by omega)
    subst hc
    simp [splitNL] at hl
    subst hl
    simp
  | succ m ih =>
    intro cs h l hl
    rw [splitNL.eq_def] at hl
    split at hl
    · simp at hl
      subst hl
      simp
    · rename_i x rest
      rcases List.mem_cons.mp hl with h2 | h2
      · subst h2
        simp
      · exact ih rest (by simp at h; omega) l h2
    · rename_i x rest
      rcases List.mem_cons.mp hl with h2 | h2
      · subst h2
        simp
      · exact ih rest (by simp at h; omega) l h2
    · rename_i x2 c rest hnot1 hnot2
      cases hs : splitNL rest with
      | nil =>
        rw [hs] at hl
        simp at hl
        subst hl
        simp only [List.mem_singleton]
        intro hx
        exact hnot2 hx.symm
      | cons l0 ls =>
        rw [hs] at hl
        rcases List.mem_cons.mp hl with h2 | h2
        · subst h2
          intro hmem
          rcases List.mem_cons.mp hmem with hx | hx
          · exact hnot2 hx.symm
          · exact ih rest (by simp at h; omega) l0
              (by rw [hs]; exact List.mem_cons_self l0 ls) hx
        · exact ih rest (by simp at h; omega) l
            (by rw [hs]; exact List.mem_cons.mpr (Or.inr h2))

/-- No line produced by the `\r?\n` split contains a line feed. -/
lemma splitNL_no_lf (cs : List Char) : ∀ l ∈ splitNL cs, '\n' ∉ l :=
  splitNL_no_lf_aux cs.length cs le_rfl

/-- Trimming only removes characters. -/
lemma mem_trimChars {c : Char} {l : List Char} (h : c ∈ trimChars l) : c ∈ l := by
  unfold trimChars at h
  have h1 : c ∈ (l.dropWhile isJsWS).reverse.dropWhile isJsWS := List.mem_reverse.mp h
  have h2 : c ∈ (l.dropWhile isJsWS).reverse := (List.dropWhile_sublist isJsWS).subset h1
  have h3 : c ∈ l.dropWhile isJsWS := List.mem_reverse.mp h2
  exact (List.dropWhile_sublist isJsWS).subset h3

/-- No line kept by `minifySDP` contains a line feed. -/
lemma keptLines_no_lf (s : String) : ∀ l ∈ keptLines s, '\n' ∉ l.data := by
  intro l hl
  unfold keptLines at hl
  have hl2 := List.mem_of_mem_filter hl
  obtain ⟨l0, hl0, rfl⟩ := List.mem_map.mp hl2
  intro hc
  exact splitNL_no_lf s.data l0 hl0 (mem_trimChars hc)

/-- The character-level form of "each line terminated by CR LF": the
concatenation of the lines, each followed by a CR LF pair. -/
def sdpJoin (ls : List (List Char)) : List Char :=
  (ls.map (· ++ ['\r', '\n'])).join

/-- The minified SDP consists of the kept lines, each CRLF-terminated, as
soon as at least one line is kept. -/
lemma minify_data (s : String) (h : keptLines s ≠ []) :
    (minifySDP s).data = sdpJoin ((keptLines s).map String.data) := by
  unfold minifySDP
  generalize keptLines s = ls at h ⊢
  induction ls with
  | nil => exact absurd rfl h
  | cons x ys ih =>
    cases ys with
    | nil =>
      show (x ++ "\r\n").data = _
      rw [String.data_append]
      simp [sdpJoin]
    | cons y ys2 =>
      show (x ++ "\r\n" ++ joinSep "\r\n" (y :: ys2) ++ "\r\n").data = _
      rw [String.data_append, String.data_append, String.data_append]
      have ih2 := ih (by simp)
      rw [String.data_append] at ih2
      rw [List.append_assoc, ih2]
      simp [sdpJoin]

/-- `normCRLF` is the identity on a CRLF-terminated segment whose line part
contains no line feed. -/
lemma normCRLF_seg : ∀ (l rest : List Char), '\n' ∉ l →
    normCRLF (l ++ '\r' :: '\n' :: rest) = l ++ '\r' :: '\n' :: normCRLF rest := by
  intro l
  induction l with
  | nil =>
    intro rest _
    simp [normCRLF]
  | cons c l' ih =>
    intro rest h
    have hc : c ≠ '\n' := fun hx => h (hx ▸ List.mem_cons_self c l')
    have hh : '\n' ∉ l' := fun hx => h (List.mem_cons.mpr (Or.inr hx))
    rw [List.cons_append, normCRLF.eq_def]
    split
    · rename_i heq
      cases heq
    · rename_i rest1 heq
      exfalso
      have hc2 := (List.cons.injEq _ _ _ _).mp heq
      cases l' with
      | nil =>
        have h22 := hc2.2
        simp only [List.nil_append] at h22
        have h23 := (List.cons.injEq _ _ _ _).mp h22
        exact absurd h23.1 (by decide)
      | cons d l'' =>
        have h22 := hc2.2
        simp only [List.cons_append] at h22
        have hd := (List.cons.injEq _ _ _ _).mp h22
        exact hh (hd.1 ▸ List.mem_cons_self d l'')
    · rename_i rest1 heq
      exfalso
      have hc2 := (List.cons.injEq _ _ _ _).mp heq
      exact hc hc2.1
    · rename_i x2 cc rr hn1 hn2 heq
      have hc2 := (List.cons.injEq _ _ _ _).mp heq
      obtain ⟨h1, h2⟩ := hc2
      subst h1
      subst h2
      rw [ih rest hh]
      rfl

/-- `normCRLF` is the identity on a join of LF-free lines. -/
lemma normCRLF_sdpJoin : ∀ (ls : List (List Char)), (∀ l ∈ ls, '\n' ∉ l) →
    normCRLF (sdpJoin ls) = sdpJoin ls := by
  intro ls
  induction ls with
  | nil => intro _; rfl
  | cons l rest ih =>
    intro h
    show normCRLF ((l ++ ['\r', '\n']) ++ sdpJoin rest) = _
    rw [List.append_assoc]
    show normCRLF (l ++ '\r' :: '\n' :: sdpJoin rest) = _
    rw [normCRLF_seg l (sdpJoin rest) (h l (List.mem_cons_self l rest))]
    rw [ih fun x hx => h x (List.mem_cons.mpr (Or.inr hx))]
    simp [sdpJoin]

/-- A non-empty join ends with the CR LF pair. -/
lemma sdpJoin_ends : ∀ (ls : List (List Char)), ls ≠ [] →
    ∃ pre, sdpJoin ls = pre ++ ['\r', '\n'] := by
  intro ls
  induction ls with
  | nil => intro h; exact absurd rfl h
  | cons l rest ih =>
    intro _
    cases rest with
    | nil =>
      refine ⟨l, ?_⟩
      simp [sdpJoin]
    | cons l2 rest2 =>
      obtain ⟨pre, hp⟩ := ih (by simp)
      refine ⟨(l ++ ['\r', '\n']) ++ pre, ?_⟩
      show (l ++ ['\r', '\n']) ++ sdpJoin (l2 :: rest2) = _
      rw [hp]
      simp [List.append_assoc]

/-- The CRLF-ended character list satisfies the JS `endsWith('\r\n')`. -/
lemma endsWithCRLF_append (pre : List Char) :
    endsWithCRLF (pre ++ ['\r', '\n']) = true := by
  unfold endsWithCRLF
  rw [List.reverse_append,
    show (['\r', '\n'] : List Char).reverse = ['\n', '\r'] from rfl,
    show (['\n', '\r'] : List Char) ++ pre.reverse = '\n' :: '\r' :: pre.reverse from rfl]
  rfl

/-- A minified SDP with at least one kept line is non-empty. -/
lemma minify_ne (s : String) (h : keptLines s ≠ []) : minifySDP s ≠ "" := by
  intro hx
  have hdata : (minifySDP s).data = [] := by
    rw [hx]
  rw [minify_data s h] at hdata
  obtain ⟨pre, hp⟩ := sdpJoin_ends ((keptLines s).map String.data) (by simpa using h)
  rw [hp] at hdata
  simp at hdata

/-- `restoreSDP` is the identity on `minifySDP` output (with a kept line):
the output is already CRLF-normalized and CRLF-terminated. -/
lemma restore_minify (s : String) (h : keptLines s ≠ []) :
    restoreSDP (minifySDP s) = minifySDP s := by
  have hd := minify_data s h
  have hnl : ∀ l ∈ (keptLines s).map String.data, '\n' ∉ l := by
    intro l hl
    obtain ⟨l0, h0, rfl⟩ := List.mem_map.mp hl
    exact keptLines_no_lf s l0 h0
  have hnorm : normCRLF (minifySDP s).data = (minifySDP s).data := by
    rw [hd]
    exact normCRLF_sdpJoin _ hnl
  obtain ⟨pre, hp⟩ := sdpJoin_ends ((keptLines s).map String.data) (by simpa using h)
  have hends : endsWithCRLF (normCRLF (minifySDP s).data) = true := by
    rw [hnorm, hd, hp]
    exact endsWithCRLF_append pre
  unfold restoreSDP
  rw [if_neg (minify_ne s h)]
  show (if endsWithCRLF (normCRLF (minifySDP s).data) then
      (normCRLF (minifySDP s).data).asString
    else (normCRLF (minifySDP s).data).asString ++ "\r\n") = _
  rw [hends]
  simp only [if_true]
  rw [hnorm]
  rfl

/-- C2 counterexample: when every line of the input SDP is stripped (here a
single `a=rtpmap` line), the round-tripped sdp is a bare CRLF, not the empty
concatenation of the (zero) kept lines that the claim demands. -/
theorem claim_C2_counterexample :
    ¬ ((decodeSignalCore (encodeSignalCore ⟨"offer", "a=rtpmap:111 opus/48000\n"⟩)).sdp.data
        = ((keptLines "a=rtpmap:111 opus/48000\n").map
            (fun l => l.data ++ ['\r', '\n'])).join) := by decide

/-- C2 (amended): for every signal object `x` whose sdp keeps at least one
line under the strip filter, `decodeSignal (encodeSignal x)` has `type =
x.type` and an sdp consisting exactly of the trimmed non-empty kept lines of
`x.sdp`, each terminated by CRLF, the whole ending with CRLF.  (When no line
survives, the sdp is a bare CRLF — see the counterexample — and when `x.sdp`
is empty it is passed through untouched, JS truthiness skipping both
`minifySDP` and `restoreSDP`.) -/
theorem claim_C2_roundtrip (x : SignalBlob) (h : keptLines x.sdp ≠ []) :
    (decodeSignalCore (encodeSignalCore x)).type = x.type
    ∧ (decodeSignalCore (encodeSignalCore x)).sdp.data
        = ((keptLines x.sdp).map (fun l => l.data ++ ['\r', '\n'])).join
    ∧ List.IsSuffix ['\r', '\n'] (decodeSignalCore (encodeSignalCore x)).sdp.data := by
  have hsne : x.sdp ≠ "" := by
    intro hx
    apply h
    rw [hx]
    rfl
  have hcore : decodeSignalCore (encodeSignalCore x)
      = ⟨x.type, restoreSDP (minifySDP x.sdp)⟩ := by
    unfold encodeSignalCore decodeSignalCore
    simp only [if_neg hsne, if_neg (minify_ne x.sdp h)]
  rw [hcore, restore_minify x.sdp h]
  refine ⟨rfl, ?_, ?_⟩
  · rw [minify_data x.sdp h]
    unfold sdpJoin
    rw [List.map_map]
    rfl
  · obtain ⟨pre, hp⟩ := sdpJoin_ends ((keptLines x.sdp).map String.data) (by simpa using h)
    rw [minify_data x.sdp h, hp]
    exact ⟨pre, rfl⟩

/-- Witness for C2: an sdp with a kept structural line, a stripped codec
line, and a kept `a=mid:` line. -/
theorem claim_C2_witness :
    (decodeSignalCore (encodeSignalCore
        ⟨"offer", "v=0\na=rtpmap:111 opus\na=mid:0\n"⟩)).type = "offer"
    ∧ (decodeSignalCore (encodeSignalCore
        ⟨"offer", "v=0\na=rtpmap:111 opus\na=mid:0\n"⟩)).sdp.data
        = ((keptLines "v=0\na=rtpmap:111 opus\na=mid:0\n").map
            (fun l => l.data ++ ['\r', '\n'])).join
    ∧ List.IsSuffix ['\r', '\n'] (decodeSignalCore (encodeSignalCore
        ⟨"offer", "v=0\na=rtpmap:111 opus\na=mid:0\n"⟩)).sdp.data :=
  claim_C2_roundtrip ⟨"offer", "v=0\na=rtpmap:111 opus\na=mid:0\n"⟩ (by decide)

end SendMedia
